import Mathlib

/-!
Shallow embedding of the core of the tuf-js TUF client, and proofs about it.

Source files embedded here:
* `src/src/fetcher.ts` — `FetcherInterface.downloadBytes`, `Updater.loadRoot`,
  `Updater.loadTimestamp`, `Updater.getTargetInfo`,
  `Updater.preorderDepthFirstWalk`, `Signed` constructor, `isNumeric`.
* `src/unnamed/part_002` — `Metadata.fromJSON`, `Metadata.verifyDelegate`,
  `Key.verifySignature`, `Role`, `Root`.

JavaScript data is modelled as follows: byte buffers become `List Nat`,
JS strings become `String`, a JS object record becomes either an ordered
association list (when insertion behaviour matters) or a lookup function
`String → Option _`, and a method that may `throw` becomes a function into
`Except String _`.  External collaborators (the HTTP stream, the crypto
verifier `signer.verifySignature`, the store on disk) are parameters, as the
source treats them as abstract interfaces.
-/

namespace TufJs

/-! ### Bounded download (`FetcherInterface.downloadBytes`, fetcher.ts 4-23)

The source iterates over the chunks delivered by the transport stream,
accumulates `numberOfBytesReceived`, throws `Error('Max length reached')` as
soon as the cumulative count strictly exceeds `maxLength`, collects each
chunk otherwise, and finally returns the concatenation of the collected
chunks.  A chunk is a `List Nat` of bytes; the stream is the list of chunks
in delivery order. -/

/-- Loop of `downloadBytes`: remaining chunks, `numberOfBytesReceived` so
far, and the `chunks` accumulator collected so far. -/
def downloadBytesGo (maxLength : Nat) :
    List (List Nat) → Nat → List (List Nat) → Except String (List Nat)
  | [], _, chunksAcc => .ok chunksAcc.flatten
  | chunk :: rest, received, chunksAcc =>
    let received2 := received + chunk.length
    if maxLength < received2 then .error "Max length reached"
    else downloadBytesGo maxLength rest received2 (chunksAcc ++ [chunk])

/-- `FetcherInterface.downloadBytes(url, maxLength)` applied to the chunk
stream the transport delivers for `url`. -/
def downloadBytes (stream : List (List Nat)) (maxLength : Nat) :
    Except String (List Nat) :=
  downloadBytesGo maxLength stream 0 []

/-! ### Signature collection (`Metadata.fromJSON`, part_002 79-83)

The source builds a plain JS record `sigs` and executes
`sigs[sig.keyid] = {keyID, sig}` for each entry of the wire `signatures`
array.  A JS record is an ordered association list in which assignment to a
present key overwrites the value in place and assignment to an absent key
appends a new entry. -/

/-- One JS record assignment `m[keyid] = sig`. -/
def recordSet (m : List (String × String)) (keyid sig : String) :
    List (String × String) :=
  if m.any (fun p => p.1 = keyid) then
    m.map (fun p => if p.1 = keyid then (keyid, sig) else p)
  else m ++ [(keyid, sig)]

/-- The `signatures.forEach` loop of `Metadata.fromJSON`: fold the wire
signature entries (keyid, sig) into a record. -/
def collectSignatures (sigs : List (String × String)) : List (String × String) :=
  sigs.foldl (fun m s => recordSet m s.1 s.2) []

/-- Record lookup: the value stored under the first entry whose key matches. -/
def recLookup (k : String) : List (String × String) → Option String
  | [] => none
  | p :: rest => if p.1 = k then some p.2 else recLookup k rest

/-- The signature the wire document declares last for keyid `k`. -/
def lastSigFor (k : String) (sigs : List (String × String)) : Option String :=
  (sigs.reverse.find? (fun p => p.1 = k)).map Prod.snd

/-! Lemmas about `recordSet` and `collectSignatures`. -/

theorem recLookup_map_update_self (keyid sig : String) :
    ∀ m : List (String × String), m.any (fun p => p.1 = keyid) →
      recLookup keyid
        (m.map (fun p => if p.1 = keyid then (keyid, sig) else p)) = some sig := by
  intro m
  induction m with
  | nil => intro h; simp at h
  | cons q rest ih =>
    intro h
    by_cases hq : q.1 = keyid
    · simp [recLookup, hq]
    · simp only [List.any_cons, Bool.or_eq_true, decide_eq_true_eq] at h
      have hrest : rest.any (fun p => p.1 = keyid) := by
        rcases h with hcase | hcase
        · exact absurd hcase hq
        · exact hcase
      simp only [List.map_cons, if_neg hq, recLookup, if_neg hq]
      exact ih hrest

theorem recLookup_append_self (keyid sig : String) :
    ∀ m : List (String × String), ¬ m.any (fun p => p.1 = keyid) →
      recLookup keyid (m ++ [(keyid, sig)]) = some sig := by
  intro m
  induction m with
  | nil => intro _; simp [recLookup]
  | cons q rest ih =>
    intro h
    simp only [List.any_cons, Bool.or_eq_true, decide_eq_true_eq, not_or] at h
    simp only [List.cons_append, recLookup, if_neg h.1]
    exact ih (by simpa using h.2)

theorem recLookup_map_update_other (keyid sig k : String) (hne : k ≠ keyid) :
    ∀ m : List (String × String),
      recLookup k (m.map (fun p => if p.1 = keyid then (keyid, sig) else p)) =
        recLookup k m := by
  intro m
  induction m with
  | nil => simp [recLookup]
  | cons q rest ih =>
    by_cases hq : q.1 = keyid
    · have hqk : ¬ q.1 = k := fun hcontra => hne (hcontra.symm.trans hq)
      have hkk : ¬ keyid = k := fun hcontra => hne hcontra.symm
      simp only [List.map_cons, if_pos hq, recLookup, if_neg hqk, if_neg hkk]
      exact ih
    · by_cases hqk : q.1 = k
      · simp only [List.map_cons, if_neg hq, recLookup, if_pos hqk]
      · simp only [List.map_cons, if_neg hq, recLookup, if_neg hqk]
        exact ih

theorem recLookup_append_other (keyid sig k : String) (hne : k ≠ keyid) :
    ∀ m : List (String × String),
      recLookup k (m ++ [(keyid, sig)]) = recLookup k m := by
  intro m
  induction m with
  | nil =>
    have hkk : ¬ keyid = k := fun hcontra => hne hcontra.symm
    simp [recLookup, hkk]
  | cons q rest ih =>
    by_cases hqk : q.1 = k
    · simp [recLookup, hqk]
    · simp only [List.cons_append, recLookup, if_neg hqk]
      exact ih

theorem recLookup_recordSet_self (m : List (String × String)) (keyid sig : String) :
    recLookup keyid (recordSet m keyid sig) = some sig := by
  unfold recordSet
  by_cases h : m.any (fun p => p.1 = keyid)
  · simpa [h] using recLookup_map_update_self keyid sig m h
  · simpa [h] using recLookup_append_self keyid sig m h

theorem recLookup_recordSet_other (m : List (String × String)) (keyid sig k : String)
    (hne : k ≠ keyid) :
    recLookup k (recordSet m keyid sig) = recLookup k m := by
  unfold recordSet
  by_cases h : m.any (fun p => p.1 = keyid)
  · simpa [h] using recLookup_map_update_other keyid sig k hne m
  · simpa [h] using recLookup_append_other keyid sig k hne m

theorem recordSet_keys_nodup (m : List (String × String)) (keyid sig : String)
    (h : (m.map Prod.fst).Nodup) :
    ((recordSet m keyid sig).map Prod.fst).Nodup := by
  unfold recordSet
  by_cases hmem : m.any (fun p => p.1 = keyid)
  · simp only [hmem, if_true, List.map_map]
    have : (List.map (Prod.fst ∘ fun p => if p.1 = keyid then (keyid, sig) else p) m) =
        m.map Prod.fst := by
      refine List.map_congr_left ?_
      intro p _
      by_cases hp : p.1 = keyid
      · simp [Function.comp, hp]
      · simp [Function.comp, hp]
    rw [this]
    exact h
  · have hnot : keyid ∉ m.map Prod.fst := by
      intro hk
      rcases List.mem_map.mp hk with ⟨p, hp, hfst⟩
      apply (by simpa using hmem : ¬ ∃ p ∈ m, p.1 = keyid)
      exact ⟨p, hp, hfst⟩
    rw [if_neg hmem, List.map_append]
    refine h.append (List.nodup_singleton _) ?_
    intro a ha hb
    have hb2 : a = keyid := by simpa using hb
    exact hnot (hb2 ▸ ha)

theorem collectSignatures_go_nodup :
    ∀ (sigs : List (String × String)) (m : List (String × String)),
      (m.map Prod.fst).Nodup →
      ((sigs.foldl (fun m s => recordSet m s.1 s.2) m).map Prod.fst).Nodup := by
  intro sigs
  induction sigs with
  | nil => intro m h; simpa using h
  | cons s rest ih =>
    intro m h
    simpa using ih (recordSet m s.1 s.2) (recordSet_keys_nodup m s.1 s.2 h)

theorem collectSignatures_go_lookup (k : String) :
    ∀ (sigs : List (String × String)) (m : List (String × String)),
      recLookup k (sigs.foldl (fun m s => recordSet m s.1 s.2) m) =
        match sigs.reverse.find? (fun p => p.1 = k) with
        | some p => some p.2
        | none => recLookup k m := by
  intro sigs
  induction sigs with
  | nil => intro m; simp
  | cons s rest ih =>
    intro m
    simp only [List.foldl_cons, List.reverse_cons, List.find?_append]
    rw [ih (recordSet m s.1 s.2)]
    cases hfind : rest.reverse.find? (fun p => p.1 = k) with
    | some p => simp [Option.orElse]
    | none =>
      simp only [Option.orElse, Option.none_orElse]
      by_cases hk : s.1 = k
      · subst hk
        rw [show ([s] : List (String × String)).find? (fun p => p.1 = s.1) = some s by
          simp [List.find?]]
        exact recLookup_recordSet_self m s.1 s.2
      · rw [show ([s] : List (String × String)).find? (fun p => p.1 = k) = none by
          simp [List.find?, hk]]
        exact recLookup_recordSet_other m s.1 s.2 k (fun hcontra => hk hcontra.symm)

/-- C10: `Metadata.fromJSON` collects the wire signatures array into a record
keyed by keyid, so the parsed metadata maps each keyid to at most one
signature, and when the array holds several entries with the same keyid only
the last one is retained. -/
theorem metadata_fromJSON_signatures_unique (sigs : List (String × String)) :
    ((collectSignatures sigs).map Prod.fst).Nodup ∧
    ∀ k, recLookup k (collectSignatures sigs) = lastSigFor k sigs := by
  constructor
  · exact collectSignatures_go_nodup sigs [] (by simp)
  · intro k
    unfold collectSignatures lastSigFor
    rw [collectSignatures_go_lookup k sigs []]
    cases hfind : sigs.reverse.find? (fun p => p.1 = k) with
    | some p => simp
    | none => simp [recLookup]

/-! Proofs about `downloadBytes`. -/

theorem downloadBytesGo_spec (maxLength : Nat) :
    ∀ (rest : List (List Nat)) (received : Nat) (chunksAcc : List (List Nat)),
      received ≤ maxLength →
      received = chunksAcc.flatten.length →
      (received + rest.flatten.length ≤ maxLength →
        downloadBytesGo maxLength rest received chunksAcc =
          .ok (chunksAcc.flatten ++ rest.flatten)) ∧
      (maxLength < received + rest.flatten.length →
        downloadBytesGo maxLength rest received chunksAcc =
          .error "Max length reached") := by
  intro rest
  induction rest with
  | nil =>
    intro received chunksAcc hle hlen
    refine ⟨fun _ => by simp [downloadBytesGo], fun hgt => ?_⟩
    exact absurd (by simpa using hgt) (by omega)
  | cons chunk tail ih =>
    intro received chunksAcc hle hlen
    simp only [List.flatten_cons, List.length_append]
    by_cases hover : maxLength < received + chunk.length
    · have hrun : downloadBytesGo maxLength (chunk :: tail) received chunksAcc =
          .error "Max length reached" := by
        simp only [downloadBytesGo]
        rw [if_pos hover]
      exact ⟨fun hok => absurd hok (by omega), fun _ => hrun⟩
    · have hrun : downloadBytesGo maxLength (chunk :: tail) received chunksAcc =
          downloadBytesGo maxLength tail (received + chunk.length)
            (chunksAcc ++ [chunk]) := by
        simp only [downloadBytesGo]
        rw [if_neg hover]
      have hlen2 : received + chunk.length = (chunksAcc ++ [chunk]).flatten.length := by
        simp [hlen]
      have := ih (received + chunk.length) (chunksAcc ++ [chunk]) (by omega) hlen2
      constructor
      · intro hok
        rw [hrun, (this.1 (by omega))]
        simp
      · intro hgt
        rw [hrun, (this.2 (by omega))]

/-- C5: every successful `downloadBytes(url, maxLength)` returns at most
`maxLength` bytes; a stream delivering exactly `maxLength` cumulative bytes
succeeds with all its bytes; the moment the cumulative received bytes
strictly exceed `maxLength`, the transfer aborts with an error instead of
returning. -/
theorem downloadBytes_length_bounded (stream : List (List Nat)) (maxLength : Nat) :
    (∀ bs, downloadBytes stream maxLength = .ok bs → bs.length ≤ maxLength) ∧
    (stream.flatten.length = maxLength →
      downloadBytes stream maxLength = .ok stream.flatten) ∧
    (maxLength < stream.flatten.length →
      downloadBytes stream maxLength = .error "Max length reached") := by
  have hspec := downloadBytesGo_spec maxLength stream 0 [] (Nat.zero_le _) (by simp)
  refine ⟨?_, ?_, ?_⟩
  · intro bs hok
    by_cases hle : stream.flatten.length ≤ maxLength
    · have := hspec.1 (by omega)
      unfold downloadBytes at hok
      rw [this] at hok
      have hbs : stream.flatten = bs := by simpa using hok
      rw [← hbs]
      omega
    · have := hspec.2 (by omega)
      unfold downloadBytes at hok
      rw [this] at hok
      cases hok
  · intro heq
    unfold downloadBytes
    have := hspec.1 (by omega)
    rw [this]
    simp
  · intro hgt
    unfold downloadBytes
    exact hspec.2 (by omega)

/-- Witness for C5 at concrete inputs: a stream of exactly three bytes under
cap 3 succeeds with those bytes, and a stream of four bytes under cap 3
aborts with the length error. -/
theorem downloadBytes_length_bounded_witness :
    downloadBytes [[1, 2], [3]] 3 = .ok [1, 2, 3] ∧
    downloadBytes [[1, 2], [3, 4]] 3 = .error "Max length reached" := by
  constructor
  · exact (downloadBytes_length_bounded [[1, 2], [3]] 3).2.1 rfl
  · exact (downloadBytes_length_bounded [[1, 2], [3, 4]] 3).2.2 (by decide)

/-! ### Root rotation loop (`Updater.loadRoot`, fetcher.ts 97-119)

The source computes `lowerBound = rootVersion + 1` and
`upperBound = lowerBound + maxRootRotations`, then runs
`for (version = lowerBound; version <= upperBound; version++)`, so the loop
enumerates the versions `lowerBound, …, upperBound` — that is
`upperBound + 1 - lowerBound = maxRootRotations + 1` candidate versions.
Each iteration fetches `<version>.root.json` and calls
`trustedSet.updateRoot`; any error breaks the loop.  `commits : Nat → Bool`
abstracts whether fetching and committing version `v` succeeds; a committed
iteration leaves the trusted Root at version `v`, because `update_root`
accepts only `current.version + 1` and the loop fetches consecutive
versions. -/

/-- Body of the `loadRoot` for-loop over the list of candidate versions:
on success the trusted Root advances to the fetched version, on any error
the loop breaks and the current version stays. -/
def loadRootGo (commits : Nat → Bool) : List Nat → Nat → Nat
  | [], current => current
  | v :: rest, current => if commits v then loadRootGo commits rest v else current

/-- `Updater.loadRoot`: the version of the trusted Root after the rotation
loop, starting from trusted version `rootVersion`. -/
def loadRoot (commits : Nat → Bool) (rootVersion maxRootRotations : Nat) : Nat :=
  let lowerBound := rootVersion + 1
  let upperBound := lowerBound + maxRootRotations
  loadRootGo commits (List.range' lowerBound (upperBound + 1 - lowerBound)) rootVersion

theorem loadRootGo_result (commits : Nat → Bool) :
    ∀ (l : List Nat) (current : Nat),
      loadRootGo commits l current = current ∨ loadRootGo commits l current ∈ l := by
  intro l
  induction l with
  | nil => intro current; left; rfl
  | cons v rest ih =>
    intro current
    by_cases hv : commits v
    · rcases ih v with hcase | hcase
      · right
        rw [show loadRootGo commits (v :: rest) current = loadRootGo commits rest v by
          simp [loadRootGo, hv]]
        rw [hcase]
        exact List.mem_cons_self _ _
      · right
        rw [show loadRootGo commits (v :: rest) current = loadRootGo commits rest v by
          simp [loadRootGo, hv]]
        exact List.mem_cons_of_mem _ hcase
    · left
      simp [loadRootGo, hv]

/-- C2 counterexample: with `maxRootRotations = 2` and every fetch and
commit succeeding, the rotation loop starting from Root version 1 commits
three new versions and ends at version 4, so the version increase (3)
strictly exceeds `maxRootRotations`. -/
theorem loadRoot_exceeds_maxRootRotations :
    loadRoot (fun _ => true) 1 2 = 4 ∧ ¬ (4 - 1 ≤ 2) := by
  constructor
  · rfl
  · decide

/-- C2 amended: the rotation loop attempts the `maxRootRotations + 1`
versions `rootVersion + 1, …, rootVersion + maxRootRotations + 1`, so after
one refresh the trusted Root version never decreases and increases by at
most `maxRootRotations + 1`. -/
theorem loadRoot_version_bounds (commits : Nat → Bool)
    (rootVersion maxRootRotations : Nat) :
    rootVersion ≤ loadRoot commits rootVersion maxRootRotations ∧
    loadRoot commits rootVersion maxRootRotations ≤
      rootVersion + (maxRootRotations + 1) := by
  have h := loadRootGo_result commits
      (List.range' (rootVersion + 1) (rootVersion + 1 + maxRootRotations + 1 - (rootVersion + 1)))
      rootVersion
  simp only [loadRoot]
  rcases h with hcase | hcase
  · rw [hcase]
    omega
  · rw [List.mem_range'_1] at hcase
    omega

/-! ### Delegation walk (`Updater.preorderDepthFirstWalk`, fetcher.ts 242-309)

The walk repeatedly pops a `(roleName, parentRoleName)` pair from the stack
`delegationsToVisit` while `visitedRoleNames.size <= maxDelegations` and the
stack is non-empty.  A popped role already visited is skipped.  Otherwise the
role is loaded through `loadTargets`; the claims fix one target path, so the
environment is `load : String → Except String (Option RoleData)`, giving for
each role name the outcome of `loadTargets`: an exception (which the walk
does not catch and therefore propagates), `undefined` targets (the walk
`continue`s), or the loaded role body already specialised to the target
path — whether `targets[targetPath]` is present (`targetInfo`) and the
ordered matching child roles `delegations.rolesForTarget(targetPath)` as
pairs (child name, terminating flag).  `visitedRoleNames` is a JS `Set`
that only ever grows by names not already present, so it is a duplicate-free
list and its `size` is the list length.  The source pushes the collected
children reversed onto the end of the array and pops from the end; the model
keeps the head of the list as the top of the stack, so the source's
reverse-then-append becomes a plain prepend. -/

/-- One entry of `delegationsToVisit`. -/
structure Delegation where
  roleName : String
  parentRoleName : String
deriving DecidableEq

/-- What the walk observes of one successfully loaded role, for the fixed
target path: `targets.targets?.[targetPath]` and the ordered result of
`targets.delegations.rolesForTarget(targetPath)` (empty when the role has no
delegations). -/
structure RoleData where
  targetInfo : Option String
  rolesForTarget : List (String × Bool)
deriving DecidableEq

/-- Result of the walk: the returned target info (if any) and the final
`visitedRoleNames`. -/
structure WalkState where
  found : Option String
  visited : List String
deriving DecidableEq

/-- The `for (const {role: childName, terminating} of rolesForTarget)` loop
(fetcher.ts 295-304): collect the children in declared order, stopping at
and including the first terminating one; the Boolean records whether a
terminating child was hit (in which case the source empties
`delegationsToVisit` before pushing). -/
def collectChildren (parent : String) : List (String × Bool) → List Delegation × Bool
  | [] => ([], false)
  | (childName, terminating) :: rest =>
    if terminating then ([⟨childName, parent⟩], true)
    else
      let r := collectChildren parent rest
      (⟨childName, parent⟩ :: r.1, r.2)

/-- `Updater.preorderDepthFirstWalk`, for a fixed target path, as a function
of the pending stack and the visited set. -/
def preorderDFS (load : String → Except String (Option RoleData)) (maxDelegations : Nat) :
    List Delegation → List String → Except String WalkState
  | [], visited => .ok ⟨none, visited⟩
  | d :: rest, visited =>
    if hBudget : visited.length ≤ maxDelegations then
      if hVisited : d.roleName ∈ visited then
        preorderDFS load maxDelegations rest visited
      else
        match load d.roleName with
        | .error e => .error e
        | .ok none => preorderDFS load maxDelegations rest visited
        | .ok (some data) =>
          match data.targetInfo with
          | some t => .ok ⟨some t, visited⟩
          | none =>
            let cc := collectChildren d.roleName data.rolesForTarget
            preorderDFS load maxDelegations (if cc.2 then cc.1 else cc.1 ++ rest)
              (d.roleName :: visited)
    else .ok ⟨none, visited⟩
termination_by stack visited => (maxDelegations + 1 - visited.length, stack.length)
decreasing_by
all_goals simp_wf
· apply Prod.Lex.right
  omega
· apply Prod.Lex.right
  omega
· apply Prod.Lex.left
  omega

/-- The walk as invoked by `getTargetInfo`: initial stack
`[(targets, root)]`, empty visited set. -/
def walkFromTop (load : String → Except String (Option RoleData))
    (maxDelegations : Nat) : Except String WalkState :=
  preorderDFS load maxDelegations [⟨"targets", "root"⟩] []

theorem preorderDFS_visited_invariant (load : String → Except String (Option RoleData))
    (max : Nat) :
    ∀ stack visited, visited.length ≤ max + 1 → visited.Nodup →
      ∀ st, preorderDFS load max stack visited = .ok st →
        st.visited.length ≤ max + 1 ∧ st.visited.Nodup := by
  intro stack visited
  induction stack, visited using preorderDFS.induct load max with
  | case1 visited =>
    intro hlen hnodup st hrun
    simp only [preorderDFS] at hrun
    cases hrun
    exact ⟨hlen, hnodup⟩
  | case2 d rest visited hb hv ih =>
    intro hlen hnodup st hrun
    simp only [preorderDFS, dif_pos hb, dif_pos hv] at hrun
    exact ih hlen hnodup st hrun
  | case3 d rest visited hb hv e hload =>
    intro hlen hnodup st hrun
    simp only [preorderDFS, dif_pos hb, dif_neg hv, hload] at hrun
    cases hrun
  | case4 d rest visited hb hv hload ih =>
    intro hlen hnodup st hrun
    simp only [preorderDFS, dif_pos hb, dif_neg hv, hload] at hrun
    exact ih hlen hnodup st hrun
  | case5 d rest visited hb hv data hload t htarget =>
    intro hlen hnodup st hrun
    simp only [preorderDFS, dif_pos hb, dif_neg hv, hload, htarget] at hrun
    cases hrun
    exact ⟨hlen, hnodup⟩
  | case6 d rest visited hb hv data hload htarget cc ih =>
    intro hlen hnodup st hrun
    simp only [preorderDFS, dif_pos hb, dif_neg hv, hload, htarget] at hrun
    exact ih (by simp; omega) (by simp [hnodup, hv]) st hrun
  | case7 d rest visited hb =>
    intro hlen hnodup st hrun
    simp only [preorderDFS, dif_neg hb] at hrun
    cases hrun
    exact ⟨hlen, hnodup⟩

/-- C3 amended: for every delegation-graph environment, including cyclic
ones, `preorderDepthFirstWalk` terminates (it is a total function defined by
well-founded recursion on the budget and stack) and, when it completes
without an exception, has visited at most `maxDelegations + 1` distinct
roles. -/
theorem walk_visits_at_most_budget_plus_one
    (load : String → Except String (Option RoleData)) (max : Nat) :
    ∀ st, walkFromTop load max = .ok st →
      st.visited.length ≤ max + 1 ∧ st.visited.Nodup :=
  fun st h =>
    preorderDFS_visited_invariant load max [⟨"targets", "root"⟩] []
      (by simp) List.nodup_nil st h

/-- Witness for the amended C3 at a concrete input: a graph in which every
role loads with no target and no delegations, budget 0. -/
theorem walk_visits_at_most_budget_plus_one_witness :
    (⟨none, ["targets"]⟩ : WalkState).visited.length ≤ 0 + 1 ∧
    (⟨none, ["targets"]⟩ : WalkState).visited.Nodup :=
  walk_visits_at_most_budget_plus_one (fun _ => .ok (some ⟨none, []⟩)) 0
    ⟨none, ["targets"]⟩
    (by simp [walkFromTop, preorderDFS, collectChildren])

/-- C3 counterexample to the claim as stated: with `maxDelegations = 0` the
walk still loads and inspects one role (the top-level targets role) before
giving up, so "at most `max_delegations` distinct roles" fails. -/
theorem walk_budget_counterexample :
    walkFromTop (fun _ => .ok (some ⟨none, []⟩)) 0 = .ok ⟨none, ["targets"]⟩ ∧
    ¬ ((1 : Nat) ≤ 0) := by
  constructor
  · simp [walkFromTop, preorderDFS, collectChildren]
  · decide

theorem collectChildren_terminating (parent : String) :
    ∀ (pre : List (String × Bool)) (tname : String) (post : List (String × Bool)),
      (∀ c ∈ pre, c.2 = false) →
      collectChildren parent (pre ++ (tname, true) :: post) =
        (pre.map (fun c => (⟨c.1, parent⟩ : Delegation)) ++ [⟨tname, parent⟩], true) := by
  intro pre
  induction pre with
  | nil =>
    intro tname post _
    simp [collectChildren]
  | cons c rest ih =>
    intro tname post hpre
    obtain ⟨cn, ct⟩ := c
    have hc : ct = false := hpre (cn, ct) (List.mem_cons_self _ _)
    subst hc
    have hrest : ∀ p ∈ rest, p.2 = false := fun p hp => hpre p (List.mem_cons_of_mem _ hp)
    simp only [List.cons_append, collectChildren, Bool.false_eq_true, if_false,
      List.append_eq]
    rw [ih tname post hrest]
    simp

/-- The delegation graph of spec scenario 5, specialised to the target path
`foo/bar`: the top-level targets role has no entry for the path and its
matching delegations, in declared order, are B (terminating) then C; both B
and C carry an entry for the path. -/
def loadScenario : String → Except String (Option RoleData) := fun r =>
  if r = "targets" then .ok (some ⟨none, [("B", true), ("C", false)]⟩)
  else if r = "B" then .ok (some ⟨some "target-from-B", []⟩)
  else if r = "C" then .ok (some ⟨some "target-from-C", []⟩)
  else .ok none

/-- C4: when the ordered matching children of the parent at the top of the
stack contain a terminating role, the walk continues on exactly the children
up to and including that terminating role — every previously pending stack
entry (`rest`) and every later sibling (`post`) is discarded; and in the
spec's scenario (B terminating before C, both matching) the walk returns B's
entry with C never visited. -/
theorem terminating_delegation_prunes
    (load : String → Except String (Option RoleData)) (max : Nat)
    (d : Delegation) (rest : List Delegation) (visited : List String)
    (data : RoleData) (pre post : List (String × Bool)) (tname : String)
    (hBudget : visited.length ≤ max) (hVis : d.roleName ∉ visited)
    (hload : load d.roleName = .ok (some data)) (htarget : data.targetInfo = none)
    (hlist : data.rolesForTarget = pre ++ (tname, true) :: post)
    (hpre : ∀ c ∈ pre, c.2 = false) :
    preorderDFS load max (d :: rest) visited =
      preorderDFS load max
        (pre.map (fun c => (⟨c.1, d.roleName⟩ : Delegation)) ++ [⟨tname, d.roleName⟩])
        (d.roleName :: visited) ∧
    walkFromTop loadScenario 32 = .ok ⟨some "target-from-B", ["targets"]⟩ ∧
    "C" ∉ (["targets"] : List String) := by
  refine ⟨?_, ?_, by decide⟩
  · have hcc := collectChildren_terminating d.roleName pre tname post hpre
    simp only [preorderDFS, dif_pos hBudget, dif_neg hVis, hload, htarget, hlist, hcc]
    simp
  · simp [walkFromTop, loadScenario, preorderDFS, collectChildren]

/-- Witness for C4 at concrete inputs: in the scenario graph, processing the
top-level targets role with a pending entry on the stack discards that entry
and pushes only B. -/
theorem terminating_delegation_prunes_witness :
    preorderDFS loadScenario 32 [⟨"targets", "root"⟩, ⟨"X", "Y"⟩] [] =
      preorderDFS loadScenario 32 [⟨"B", "targets"⟩] ["targets"] :=
  (terminating_delegation_prunes loadScenario 32 ⟨"targets", "root"⟩ [⟨"X", "Y"⟩] []
    ⟨none, [("B", true), ("C", false)]⟩ [] [("C", false)] "B"
    (by decide) (by decide) (by simp [loadScenario]) rfl rfl (by decide)).1

/-! ### `Updater.getTargetInfo` (fetcher.ts 233-240)

The body is `if (!this.trustedSet.targets) { this.refresh(); }` followed by
`return this.preorderDepthFirstWalk(targetPath)`.  The call `this.refresh()`
is not awaited.  A JS async call runs synchronously only until its first
`await` — `refresh` suspends inside `loadRoot` at the first network fetch,
before committing anything to the trusted set — so the walk is entered
against the pre-refresh trusted set and the effects of the un-awaited
refresh are not sequenced before it.  `load` is the walk environment
induced by the pre-refresh trusted set, `loadAfterRefresh` the one induced
by a completed refresh; `targetsTrusted` is `this.trustedSet.targets`
being set. -/

/-- `getTargetInfo` as written: `loadAfterRefresh` and `targetsTrusted` are
unused precisely because the `refresh()` call is not awaited. -/
def getTargetInfoAsWritten
    (load loadAfterRefresh : String → Except String (Option RoleData))
    (targetsTrusted : Bool) (maxDelegations : Nat) : Except String WalkState :=
  walkFromTop load maxDelegations

/-- Modelled from the spec: `get_target_info(path)` — if refresh has not
yet populated top-level Targets, call `refresh()` first and only then
invoke the resolver, so the walk runs against the refreshed trusted set
(spec section 4.4). -/
def getTargetInfoSpec
    (load loadAfterRefresh : String → Except String (Option RoleData))
    (targetsTrusted : Bool) (maxDelegations : Nat) : Except String WalkState :=
  if targetsTrusted then walkFromTop load maxDelegations
  else walkFromTop loadAfterRefresh maxDelegations

/-- Walk environment of a freshly constructed Updater, before any refresh:
only the local Root is trusted, so `loadTargets("targets", "root")` throws
`No snapshot metadata` (fetcher.ts 201-203). -/
def loadFreshUpdater : String → Except String (Option RoleData) := fun _ =>
  .error "No snapshot metadata"

/-- Walk environment for the same repository after a completed refresh: the
top-level targets role carries the requested entry. -/
def loadRefreshed : String → Except String (Option RoleData) := fun r =>
  if r = "targets" then .ok (some ⟨some "file1-info", []⟩) else .ok none

/-- C6: on a fresh Updater (no top-level Targets trusted yet) the code
starts the delegation walk against the pre-refresh trusted set — here the
walk fails with `No snapshot metadata` — whereas completing the refresh
first, as the spec requires, would let the walk return the target entry. -/
theorem getTargetInfo_walks_before_refresh_completes :
    getTargetInfoAsWritten loadFreshUpdater loadRefreshed false 32 =
      .error "No snapshot metadata" ∧
    getTargetInfoSpec loadFreshUpdater loadRefreshed false 32 =
      .ok ⟨some "file1-info", []⟩ := by
  constructor
  · simp [getTargetInfoAsWritten, walkFromTop, preorderDFS, loadFreshUpdater]
  · simp [getTargetInfoSpec, walkFromTop, preorderDFS, loadRefreshed]

/-! ### `Metadata.verifyDelegate` (part_002 100-143)

`verifyDelegate(delegatedRole, delegatedMetadata)` looks the role definition
and key map up in the Root body, then iterates `role.keyIDs`: a keyid
missing from `keys` throws; each key's `verifySignature` is called inside
`try { … } catch (error) { throw new Error('Key … failed to verify …') }`
— the catch RETHROWS, so any key whose verification fails aborts the whole
check; a key that verifies is added to the `signingKeys` set.  After the
loop, `signingKeys.size < role.threshold` throws.  `Key.verifySignature`
(part_002 211-245, same logic as part_001 35-59) fails when the envelope has
no signature under the keyID, when the key has no public key material, or
when the external verifier rejects or throws; `cryptoOk key sig` abstracts
the external `signer.verifySignature` outcome on the fixed metadata body. -/

/-- A TUF public key: `keyID` and `keyVal.public`. -/
structure Key where
  keyID : String
  publicKey : Option String
deriving DecidableEq

/-- A role definition: ordered keyid list and threshold. -/
structure Role where
  keyIDs : List String
  threshold : Nat
deriving DecidableEq

/-- The parts of a Root body that `verifyDelegate` consults. -/
structure RootInfo where
  keys : String → Option Key
  roles : String → Option Role

/-- `Key.verifySignature(metadata)`; `sigFor` maps a keyid to the signature
the envelope carries under it. -/
def keyVerifySignature (cryptoOk : Key → String → Bool) (k : Key)
    (sigFor : String → Option String) : Except String Unit :=
  match sigFor k.keyID with
  | none => .error "No signature for key found in metadata"
  | some sig =>
    match k.publicKey with
    | none => .error "No spublic key found"
    | some _ =>
      if cryptoOk k sig then .ok () else .error "Failed to verify signature"

/-- The `role.keyIDs.forEach` loop of `verifyDelegate` (part_002 120-136),
accumulating the `signingKeys` set (a duplicate-free list). -/
def verifyDelegateGo (cryptoOk : Key → String → Bool) (keys : String → Option Key)
    (sigFor : String → Option String) :
    List String → List String → Except String (List String)
  | [], signingKeys => .ok signingKeys
  | keyID :: restIDs, signingKeys =>
    match keys keyID with
    | none => .error ("No key found for " ++ keyID)
    | some key =>
      match keyVerifySignature cryptoOk key sigFor with
      | .error _ => .error ("Key " ++ key.keyID ++ " failed to verify")
      | .ok _ =>
        verifyDelegateGo cryptoOk keys sigFor restIDs
          (if key.keyID ∈ signingKeys then signingKeys else key.keyID :: signingKeys)

/-- `Metadata.verifyDelegate` for a Root authority. -/
def verifyDelegate (cryptoOk : Key → String → Bool) (root : RootInfo)
    (delegatedRole : String) (sigFor : String → Option String) :
    Except String Unit :=
  match root.roles delegatedRole with
  | none => .error ("No delegation fround for " ++ delegatedRole)
  | some role =>
    match verifyDelegateGo cryptoOk root.keys sigFor role.keyIDs [] with
    | .error e => .error e
    | .ok signingKeys =>
      if signingKeys.length < role.threshold then
        .error (delegatedRole ++ " was signed by too few keys")
      else .ok ()

/-- Modelled from the spec (section 4.2, signature verification rule), for
comparison with the source: a keyid of the role's declared list contributes
iff its key verifies the metadata; a missing or failing signature merely
does not contribute.  Restricted to roles all of whose keyids exist in the
key map (a missing key is fatal in both spec and source). -/
def specContributingKeyIDs (cryptoOk : Key → String → Bool)
    (keys : String → Option Key) (sigFor : String → Option String)
    (role : Role) : List String :=
  (role.keyIDs.filter fun kid =>
    match keys kid with
    | none => false
    | some key =>
      match keyVerifySignature cryptoOk key sigFor with
      | .ok _ => true
      | .error _ => false).dedup

/-- Key map of the C1 failing input: two declared keys, both with public
key material. -/
def exKeys : String → Option Key := fun kid =>
  if kid = "k1" then some ⟨"k1", some "pub1"⟩
  else if kid = "k2" then some ⟨"k2", some "pub2"⟩
  else none

/-- Envelope of the C1 failing input: a signature under `k1` only. -/
def exSigs : String → Option String := fun kid =>
  if kid = "k1" then some "sig1" else none

/-- Root of the C1 failing input: role `timestamp` with keyids `[k1, k2]`
and threshold 1. -/
def exRoot : RootInfo :=
  ⟨exKeys, fun r => if r = "timestamp" then some ⟨["k1", "k2"], 1⟩ else none⟩

/-- C1 failing input, with every crypto verification of a present signature
succeeding: the envelope carries one valid signature from `k1`, so one
distinct declared keyid verifies and the role's threshold 1 is met — yet
`verifyDelegate` rejects, because the missing signature for `k2` is fatal
(the catch block rethrows) instead of merely not contributing. -/
theorem verifyDelegate_failed_key_is_fatal :
    verifyDelegate (fun _ _ => true) exRoot "timestamp" exSigs =
      .error "Key k2 failed to verify" ∧
    (specContributingKeyIDs (fun _ _ => true) exKeys exSigs
      ⟨["k1", "k2"], 1⟩).length = 1 ∧
    (1 : Nat) ≥ 1 := by
  refine ⟨?_, ?_, le_refl 1⟩
  · rfl
  · rfl

/-! ### Timestamp step of refresh (`Updater.loadTimestamp`, fetcher.ts 121-152)

`loadTimestamp` first tries the local `timestamp.json` and absorbs every
error, then always fetches the remote one and calls
`trustedSet.updateTimestamp(bytes)` inside a try/catch: an
`EqualVersionError` returns early (the bytes are not persisted and refresh
continues), any other error is rethrown, and on success the bytes are
persisted.  `TrustedMetadataStore.updateTimestamp` lives in `src/store.ts`,
which is not among the provided sources; it is modelled from spec
section 4.2(2) below.  Signature verification and expiry are abstracted
into the Boolean fields `wellSigned` and `expired` of the parsed
timestamp. -/

/-- Error kinds of the trusted-store update operations. -/
inductive TufError
  | equalVersion
  | badVersion
  | expiredMetadata
  | unsignedMetadata
deriving DecidableEq

/-- The parsed timestamp fields the update logic consults. -/
structure TimestampData where
  version : Nat
  snapshotVersion : Nat
  expired : Bool
  wellSigned : Bool
deriving DecidableEq

/-- The slice of the trusted-store state the timestamp update touches. -/
structure TsState where
  rootExpired : Bool
  timestamp : Option TimestampData
deriving DecidableEq

/-- Modelled from the spec: `update_timestamp(bytes)` of the trusted
metadata store (`src/store.ts`, absent from the sources) — reject when the
current Root is expired; verify signatures against Root's timestamp role at
threshold; against an already-trusted timestamp signal `EqualVersion` on an
equal version, `BadVersion` on a lower version or on a snapshot-meta
rollback; reject an expired new timestamp; otherwise commit (spec
section 4.2(2)). -/
def updateTimestamp (st : TsState) (new : TimestampData) : Except TufError TsState :=
  if st.rootExpired then .error .expiredMetadata
  else if ¬ new.wellSigned then .error .unsignedMetadata
  else
    match st.timestamp with
    | some cur =>
      if new.version = cur.version then .error .equalVersion
      else if new.version < cur.version then .error .badVersion
      else if new.snapshotVersion < cur.snapshotVersion then .error .badVersion
      else if new.expired then .error .expiredMetadata
      else .ok { st with timestamp := some new }
    | none =>
      if new.expired then .error .expiredMetadata
      else .ok { st with timestamp := some new }

/-- The state after the local step of `loadTimestamp` (fetcher.ts 123-128):
try `updateTimestamp` on the local file and absorb any error. -/
def afterLocalTimestamp (st : TsState) (localTs : Option TimestampData) : TsState :=
  match localTs with
  | none => st
  | some l =>
    match updateTimestamp st l with
    | .ok st2 => st2
    | .error _ => st

/-- Outcome of `loadTimestamp`: the trusted-store state afterwards and
whether the fetched bytes were persisted to the metadata directory. -/
structure TimestampLoad where
  state : TsState
  persisted : Bool
deriving DecidableEq

/-- `Updater.loadTimestamp`, given the parsed local file (if readable) and
the parsed remote fetch. -/
def loadTimestamp (st : TsState) (localTs : Option TimestampData)
    (remote : TimestampData) : Except TufError TimestampLoad :=
  let st1 := afterLocalTimestamp st localTs
  match updateTimestamp st1 remote with
  | .ok st2 => .ok ⟨st2, true⟩
  | .error e => if e = .equalVersion then .ok ⟨st1, false⟩ else .error e

/-- C7: when the remote timestamp update signals `EqualVersion`, the error
is absorbed — `loadTimestamp` succeeds, the trusted state is unchanged and
nothing is persisted; any other update error propagates; a successful
update persists the fetched bytes. -/
theorem loadTimestamp_absorbs_equalVersion (st : TsState)
    (localTs : Option TimestampData) (remote : TimestampData) :
    (updateTimestamp (afterLocalTimestamp st localTs) remote = .error .equalVersion →
      loadTimestamp st localTs remote = .ok ⟨afterLocalTimestamp st localTs, false⟩) ∧
    (∀ e, e ≠ TufError.equalVersion →
      updateTimestamp (afterLocalTimestamp st localTs) remote = .error e →
      loadTimestamp st localTs remote = .error e) ∧
    (∀ st2, updateTimestamp (afterLocalTimestamp st localTs) remote = .ok st2 →
      loadTimestamp st localTs remote = .ok ⟨st2, true⟩) := by
  refine ⟨?_, ?_, ?_⟩
  · intro h
    simp only [loadTimestamp, h]
    rfl
  · intro e he h
    simp only [loadTimestamp, h]
    rw [if_neg he]
  · intro st2 h
    simp only [loadTimestamp, h]

/-- Witness for C7 at a concrete input: trusted timestamp at version 5 with
snapshot version 10, remote timestamp identical in version — the update
signals `EqualVersion` and `loadTimestamp` returns the unchanged state,
unpersisted. -/
theorem loadTimestamp_absorbs_equalVersion_witness :
    loadTimestamp ⟨false, some ⟨5, 10, false, true⟩⟩ none ⟨5, 10, false, true⟩ =
      .ok ⟨⟨false, some ⟨5, 10, false, true⟩⟩, false⟩ :=
  (loadTimestamp_absorbs_equalVersion ⟨false, some ⟨5, 10, false, true⟩⟩ none
    ⟨5, 10, false, true⟩).1 rfl

/-! ### `Signed` constructor (fetcher.ts 402-427) and `isNumeric` (475-477)

The constructor evaluates
`this.specVersion = options.specVersion || SPECIFICATION_VERSION.join('.')`
— in JS both `undefined` and the empty string are falsy, so both select the
default `1.20.30` — then splits on `.`, throws `ValueError` unless there
are 2 or 3 components all satisfying `isNumeric`, throws unless the first
component equals `SPECIFICATION_VERSION[0] = "1"`, and finally fills
`expires` (falsy → `new Date().toISOString()`, passed here as `now`) and
`version` (falsy, hence also `0` → `1`).  `isNumeric(str)` is
`!isNaN(Number(str))`; `Number(string)` trims whitespace, maps the empty
string to `0`, and otherwise accepts exactly the JS numeric literals:
optionally signed decimal or `Infinity`, or unsigned hex/octal/binary
forms.  Strings are processed as their character lists so that everything
below evaluates inside the kernel. -/

/-- Whitespace trimmed by JS `Number(string)` (the ASCII subset, which
covers every string of interest here). -/
def isJsWhitespace (c : Char) : Bool :=
  c = ' ' || c = '\t' || c = '\n' || c = '\r'

/-- Exponent suffix of a JS decimal literal: empty, or `e`/`E` with an
optional sign and at least one digit. -/
def isExpPart : List Char → Bool
  | [] => true
  | c :: rest =>
    (c = 'e' || c = 'E') &&
      (let digits := match rest with
        | d :: r2 => if d = '+' || d = '-' then r2 else rest
        | [] => []
      !digits.isEmpty && digits.all Char.isDigit)

/-- Unsigned JS decimal literal: `digits [. digits] [exp]` or
`. digits [exp]`, with at least one digit. -/
def isUnsignedDecimal (cs : List Char) : Bool :=
  let intPart := cs.takeWhile Char.isDigit
  let rest := cs.dropWhile Char.isDigit
  match rest with
  | [] => !intPart.isEmpty
  | '.' :: rest2 =>
    let fracPart := rest2.takeWhile Char.isDigit
    let rest3 := rest2.dropWhile Char.isDigit
    (!intPart.isEmpty || !fracPart.isEmpty) && isExpPart rest3
  | _ => !intPart.isEmpty && isExpPart rest

/-- Unsigned hex, octal and binary literal forms accepted by `Number`. -/
def isRadixLiteral : List Char → Bool
  | '0' :: x :: rest =>
    if x = 'x' || x = 'X' then
      !rest.isEmpty && rest.all fun c =>
        c.isDigit || ('a' ≤ c && c ≤ 'f') || ('A' ≤ c && c ≤ 'F')
    else if x = 'o' || x = 'O' then
      !rest.isEmpty && rest.all fun c => '0' ≤ c && c ≤ '7'
    else if x = 'b' || x = 'B' then
      !rest.isEmpty && rest.all fun c => c = '0' || c = '1'
    else false
  | _ => false

/-- `isNumeric` on a character list: the trimmed string is empty (then
`Number` yields `0`) or a JS numeric literal. -/
def isNumericChars (cs0 : List Char) : Bool :=
  let cs := ((cs0.dropWhile isJsWhitespace).reverse.dropWhile isJsWhitespace).reverse
  match cs with
  | [] => true
  | _ =>
    isRadixLiteral cs ||
      (let body := match cs with
        | c :: rest => if c = '+' || c = '-' then rest else cs
        | [] => []
      (body == "Infinity".data) || isUnsignedDecimal body)

/-- `isNumeric(str)` (fetcher.ts 475-477). -/
def isNumeric (s : String) : Bool := isNumericChars s.data

/-- JS `str.split('.')` on the character list of the string: split at every
separator occurrence; the empty string yields one empty component, and a
trailing separator yields a trailing empty component. -/
def splitOnDot : List Char → List (List Char)
  | [] => [[]]
  | c :: rest =>
    if c = '.' then [] :: splitOnDot rest
    else
      match splitOnDot rest with
      | [] => [[c]]
      | p :: ps => (c :: p) :: ps

/-- `specList[0]`: the first component of a split result (`splitOnDot`
never returns an empty list). -/
def firstPart : List (List Char) → List Char
  | [] => []
  | p :: _ => p

/-- `SPECIFICATION_VERSION` (fetcher.ts 388). -/
def SPECIFICATION_VERSION : List String := ["1", "20", "30"]

/-- The constructor options the `Signed` constructor reads; `none` models an
absent (`undefined`) field. -/
structure SignedOptions where
  specVersion : Option String
  expires : Option String
  version : Option Nat
deriving DecidableEq

/-- The fields a constructed `Signed` carries (the unrecognized-fields bag
is not involved in any claim). -/
structure SignedData where
  specVersion : String
  expires : String
  version : Nat
deriving DecidableEq

/-- `options.specVersion || SPECIFICATION_VERSION.join('.')`: `undefined`
and the empty string are falsy, so both select the default. -/
def effectiveSpecVersion : Option String → String
  | none => String.intercalate "." SPECIFICATION_VERSION
  | some s => if s = "" then String.intercalate "." SPECIFICATION_VERSION else s

/-- The `Signed` constructor (fetcher.ts 408-427); `now` is the
construction instant `new Date().toISOString()`.  `specList[0]` is total in
JS; `splitOnDot` never returns an empty list, and `headD []` mirrors the
indexing. -/
def signedCtor (now : String) (o : SignedOptions) : Except String SignedData :=
  let specVersion := effectiveSpecVersion o.specVersion
  let specList := splitOnDot specVersion.data
  if ¬ ((specList.length = 2 ∨ specList.length = 3) ∧ specList.all isNumericChars) then
    .error "Failed to parse specVersion"
  else if firstPart specList ≠ "1".data then
    .error "Unsupported specVersion"
  else
    .ok { specVersion := specVersion,
          expires := match o.expires with
            | none => now
            | some e => if e = "" then now else e,
          version := match o.version with
            | none => 1
            | some v => if v = 0 then 1 else v }

/-- The acceptance condition exactly as claim C8 states it, applied to the
supplied string: splitting on `.` yields 2 or 3 components, every component
is numeric (in the sense of the cited `isNumeric`), and the first component
equals `"1"`. -/
def claimedSpecVersionOk (s : String) : Bool :=
  let parts := splitOnDot s.data
  ((parts.length == 2) || (parts.length == 3)) && parts.all isNumericChars &&
    (firstPart parts == "1".data)

/-- The constructor's spec-version test as a predicate on the effective
string, grouped as the source groups it. -/
@[reducible]
def specVersionAccepted (sv : String) : Prop :=
  ((splitOnDot sv.data).length = 2 ∨ (splitOnDot sv.data).length = 3) ∧
    (splitOnDot sv.data).all isNumericChars = true ∧
    firstPart (splitOnDot sv.data) = "1".data

/-- C8 counterexample: supplying the empty string as `spec_version` does
not fail — the empty string is falsy, so the default `1.20.30` silently
replaces it and construction succeeds — even though the empty string
violates the claim's three conditions (it splits into one component). -/
theorem signedCtor_empty_specVersion_accepted :
    signedCtor "now0" ⟨some "", none, none⟩ = .ok ⟨"1.20.30", "now0", 1⟩ ∧
    claimedSpecVersionOk "" = false := by
  constructor
  · rfl
  · rfl

/-- C8 amended: for every non-empty supplied `spec_version` string the
constructor succeeds exactly when the claim's three conditions hold (2 or 3
components, all numeric, first equal to `"1"`); the empty string alone
escapes the check by falling back to the default. -/
theorem signedCtor_accepts_iff_claimed (now : String) (e : Option String)
    (v : Option Nat) (s : String) (hne : s ≠ "") :
    (∃ d, signedCtor now ⟨some s, e, v⟩ = .ok d) ↔
      claimedSpecVersionOk s = true := by
  have heff : effectiveSpecVersion (some s) = s := by
    simp [effectiveSpecVersion, hne]
  simp only [signedCtor, heff]
  by_cases h1 : ((splitOnDot s.data).length = 2 ∨ (splitOnDot s.data).length = 3) ∧
      (splitOnDot s.data).all isNumericChars
  · by_cases h2 : firstPart (splitOnDot s.data) = "1".data
    · rw [if_neg (not_not_intro h1), if_neg (not_not_intro h2)]
      constructor
      · intro _
        rcases h1.1 with hl | hl <;>
          simp [claimedSpecVersionOk, hl, h1.2, h2]
      · intro _
        exact ⟨_, rfl⟩
    · rw [if_neg (not_not_intro h1), if_pos h2]
      constructor
      · intro ⟨d, hd⟩
        cases hd
      · intro hc
        exfalso
        apply h2
        have := (Bool.and_eq_true _ _).mp hc
        simpa using this.2
  · rw [if_pos h1]
    constructor
    · intro ⟨d, hd⟩
      cases hd
    · intro hc
      exfalso
      apply h1
      have := (Bool.and_eq_true _ _).mp hc
      have hlen := (Bool.and_eq_true _ _).mp this.1
      refine ⟨?_, hlen.2⟩
      rcases (Bool.or_eq_true _ _).mp hlen.1 with hl | hl
      · exact Or.inl (by simpa using hl)
      · exact Or.inr (by simpa using hl)

/-- Witness for the amended C8 at a concrete input: the supplied string
`1.0` is non-empty, satisfies the three conditions, and is accepted. -/
theorem signedCtor_accepts_iff_claimed_witness :
    ∃ d, signedCtor "now0" ⟨some "1.0", none, none⟩ = .ok d :=
  (signedCtor_accepts_iff_claimed "now0" none none "1.0" (by decide)).mpr (by decide)

/-- C9: whenever the spec-version check passes, construction succeeds, an
absent or zero `version` silently becomes `1`, and an absent `expires`
silently becomes the construction instant; neither omission is reported as
an error. -/
theorem signedCtor_silent_defaults (now : String) (o : SignedOptions)
    (h : specVersionAccepted (effectiveSpecVersion o.specVersion)) :
    ∃ d, signedCtor now o = .ok d ∧
      ((o.version = none ∨ o.version = some 0) → d.version = 1) ∧
      (o.expires = none → d.expires = now) := by
  obtain ⟨h1, h2, h3⟩ := h
  refine ⟨⟨effectiveSpecVersion o.specVersion,
      match o.expires with | none => now | some e => if e = "" then now else e,
      match o.version with | none => 1 | some v => if v = 0 then 1 else v⟩,
    ?_, ?_, ?_⟩
  · simp only [signedCtor]
    rw [if_neg (not_not_intro ⟨h1, h2⟩), if_neg (not_not_intro h3)]
  · intro hv
    rcases hv with hv | hv <;> simp [hv]
  · intro he
    simp [he]

/-- Witness for C9 at a concrete input: all three options absent. -/
theorem signedCtor_silent_defaults_witness :
    ∃ d, signedCtor "t0" ⟨none, none, none⟩ = .ok d ∧
      (((none : Option Nat) = none ∨ (none : Option Nat) = some 0) →
        d.version = 1) ∧
      ((none : Option String) = none → d.expires = "t0") :=
  signedCtor_silent_defaults "t0" ⟨none, none, none⟩ (by decide)

end TufJs
